import Mathlib

/-!
Shallow embedding of the Logic Pro Scripter repository
(ChordEnumerator.js — bar chord logger, and the length-sensitive note
repeater tail script) together with proofs about the embedded code.

JavaScript numbers are modelled as rationals (ℚ); MIDI pitches,
velocities and channels of incoming events as naturals; JS objects used
as sets of integer keys become sorted duplicate-free lists; the
`activeNotes` string-keyed map becomes a function from (pitch, channel)
keys to optional entries.  Host callbacks (`HandleMIDI`, `ProcessMIDI`)
become pure state-transition functions that also return the list of
observable outputs (sent events, scheduled events, per-bar log flushes).
-/

set_option linter.unusedVariables false

namespace Scripter

/-! ## Shared helpers (ChordEnumerator.js) -/

/-- Insert a value into an ascending duplicate-free list, keeping it
ascending and duplicate-free.  This is the semantics of collecting
values as keys of a JS object and reading them back in sorted order. -/
def insertSortedUnique (x : ℕ) : List ℕ → List ℕ
  | [] => [x]
  | y :: ys =>
    if x < y then x :: y :: ys
    else if x = y then y :: ys
    else y :: insertSortedUnique x ys

/-- `uniqSorted` from ChordEnumerator.js: the distinct values of the
input in ascending order (JS: object-keyed set, then numeric sort). -/
def uniqSorted (l : List ℕ) : List ℕ :=
  l.foldr insertSortedUnique []

/-- `pcsFromPitches`: distinct pitch classes (pitch mod 12), ascending. -/
def pcsFromPitches (pitches : List ℕ) : List ℕ :=
  uniqSorted (pitches.map (fun p => p % 12))

/-- `intervalsFromRootPC`: unique sorted semitone intervals (0..11) of
each pitch class relative to `rootPC` (JS: `(pc - rootPC + 12) % 12`). -/
def intervalsFromRootPC (pcs : List ℕ) (rootPC : ℕ) : List ℕ :=
  uniqSorted (pcs.map (fun pc : ℕ => (((pc : ℤ) - (rootPC : ℤ) + 12) % 12).toNat))

/-- `has` from ChordEnumerator.js: membership test on the interval list. -/
def has (ints : List ℕ) (v : ℕ) : Bool :=
  ints.contains v

def NAMES_SHARPS : List String :=
  ["C", "C#", "D", "D#", "E", "F"] ++ ["F#", "G", "G#", "A", "A#", "B"]

def NAMES_FLATS : List String :=
  ["C", "Db", "D", "Eb", "E", "F", "Gb", "G", "Ab", "A", "Bb", "B"]

/-- `pcName`: pitch-class display name; `style = 0` selects sharps
(the "Pitch Class Style" plugin parameter). -/
def pcName (style : ℕ) (pc : ℕ) : String :=
  let pcn := (pc % 12 + 12) % 12
  if style = 0 then NAMES_SHARPS.getD pcn "" else NAMES_FLATS.getD pcn ""

/-- JS `s.indexOf(sub) !== -1` for strings: `sub` occurs inside `s`. -/
def strContains (s sub : String) : Bool :=
  (s.splitOn sub).length != 1

/-- Triad-quality classification of `chordNameFromLowestRoot`
(first match wins; major is encoded as the empty string). -/
def buildQuality (ints : List ℕ) : String :=
  if has ints 4 && has ints 7 then ""
  else if has ints 3 && has ints 7 then "m"
  else if has ints 3 && has ints 6 then "dim"
  else if has ints 4 && has ints 8 then "aug"
  else if has ints 2 && has ints 7 then "sus2"
  else if has ints 5 && has ints 7 then "sus4"
  else ""

/-- Extension/alteration suffix construction of
`chordNameFromLowestRoot`, with every sequential mutation of the JS
`suffix` variable rendered as a rebinding. -/
def buildSuffix (ints : List ℕ) (quality : String) : String :=
  let suffix := ""
  let suffix :=
    if has ints 10 then suffix ++ "7"
    else if has ints 11 then suffix ++ "maj7"
    else suffix
  let suffix :=
    if has ints 9 && !(strContains suffix "7") then
      let s1 := suffix ++ (if suffix != "" then "" else "6")
      if s1 == "" then "6"
      else if s1 == "maj7" then s1 ++ "(add6)"
      else s1
    else suffix
  let suffix :=
    if has ints 2 then
      if suffix == "" && (quality == "" || quality == "m" || quality == "dim"
          || quality == "aug" || "sus".isPrefixOf quality) then
        let s1 := suffix ++ (if suffix != "" then "" else "")
        s1 ++ (if s1 != "" && s1 != "6" then "(add9)" else "add9")
      else suffix ++ "9"
    else suffix
  let suffix :=
    if has ints 5 then
      if quality != "sus4" then suffix ++ ((if suffix != "" then "" else "") ++ "add11")
      else suffix
    else suffix
  let suffix :=
    if has ints 9 then
      if has ints 10 || has ints 11 then suffix ++ "13" else suffix
    else suffix
  let suffix := if has ints 6 && quality != "dim" then suffix ++ "b5" else suffix
  let suffix := if has ints 8 && quality != "aug" then suffix ++ "#5" else suffix
  let suffix := if has ints 1 then suffix ++ "b9" else suffix
  let suffix := if has ints 3 && quality == "" then suffix ++ "#9" else suffix
  suffix

/-- Final label assembly of `chordNameFromLowestRoot`, including the
interval-list fallback taken when `quality` and `suffix` are both empty
and more than one pitch class is present. -/
def chordLabel (style rootPC : ℕ) (pcs ints : List ℕ) : String :=
  let quality := buildQuality ints
  let suffix := buildSuffix ints quality
  let name := pcName style rootPC ++ quality ++ suffix
  let meaningful := (quality != "") || (suffix != "") || (pcs.length == 1)
  if !meaningful then
    pcName style rootPC ++ " ("
      ++ String.intercalate "," ((ints.filter (fun v => v != 0)).map toString) ++ ")"
  else name

/-- Result record of `chordNameFromLowestRoot` (its JS return object). -/
structure ChordResult where
  name : String
  bass : ℕ
  pcs : List ℕ
  pitches : List ℕ
  intervals : List ℕ
deriving DecidableEq

/-- `chordNameFromLowestRoot` from ChordEnumerator.js.  The JS function
returns the bare string "(no notes)" for an empty input; that degenerate
non-object return is modelled as `none`. -/
def chordNameFromLowestRoot (style : ℕ) (pitches0 : List ℕ) : Option ChordResult :=
  if pitches0.isEmpty then none
  else
    let pitches := uniqSorted pitches0
    let bass := pitches.headD 0
    let rootPC := bass % 12
    let pcs := pcsFromPitches pitches
    let ints := intervalsFromRootPC pcs rootPC
    some ⟨chordLabel style rootPC pcs ints, bass, pcs, pitches, ints⟩

/-! ## Pipeline A — bar chord logger state machine (ChordEnumerator.js) -/

/-- Host timing snapshot consumed by `ProcessMIDI` (GetTimingInfo). -/
structure TimingInfo where
  playing : Bool
  blockStartBeat : ℚ
  meterNumerator : ℚ
  meterDenominator : ℚ

/-- JS `x || fallback` on numbers: `0` is falsy and is replaced. -/
def jsOrNum (x fallback : ℚ) : ℚ :=
  if x = 0 then fallback else x

/-- `beatsPerBar = num * (4 / den)` after the `|| 4` fallbacks of
`ProcessMIDI` in ChordEnumerator.js. -/
def beatsPerBarOf (t : TimingInfo) : ℚ :=
  jsOrNum t.meterNumerator 4 * (4 / jsOrNum t.meterDenominator 4)

/-- `barIndex = Math.floor(t.blockStartBeat / beatsPerBar)` (0-based). -/
def barIndexOf (t : TimingInfo) : ℤ :=
  ⌊t.blockStartBeat / beatsPerBarOf t⌋

/-- Mutable module state of ChordEnumerator.js
(`currentBar`, `barPitches`, `lastPlayed`). -/
structure AState where
  currentBar : Option ℤ
  barPitches : List ℕ
  lastPlayed : Bool

/-- Unrolling of the `while (currentBar < barIndex)` flush loop of
`ProcessMIDI`: `k` is the iteration count `(barIndex - currentBar).toNat`;
each iteration reports `(currentBar + 1, barPitches)` (the 1-based bar
number `flushBar` logs, with the pitches it reads) and then clears
`barPitches`, so every iteration after the first reports an empty list. -/
def flushIter : ℕ → ℤ → List ℕ → List (ℤ × List ℕ)
  | 0, _, _ => []
  | k + 1, c, pitches => (c + 1, pitches) :: flushIter k (c + 1) []

/-- `ProcessMIDI` of ChordEnumerator.js as a state transition.  Returns
the new state and the list of bar flushes performed (bar number and the
pitch list handed to `flushBar`).  The post-loop `currentBar` is
`max c barIndex` because the while loop only runs when `c < barIndex`
(a backwards jump enters the `barIndex !== currentBar` branch but
iterates zero times). -/
def processMIDI_A (st0 : AState) (t : TimingInfo) : AState × List (ℤ × List ℕ) :=
  let st1 := if !t.playing && st0.lastPlayed
    then { st0 with currentBar := none, barPitches := [] } else st0
  let st2 := { st1 with lastPlayed := t.playing }
  if !t.playing then (st2, [])
  else
    let barIndex := barIndexOf t
    match st2.currentBar with
    | none => ({ st2 with currentBar := some barIndex }, [])
    | some c =>
      if c ≠ barIndex then
        ({ st2 with currentBar := some (max c barIndex),
                    barPitches := if c < barIndex then [] else st2.barPitches },
         flushIter (barIndex - c).toNat c st2.barPitches)
      else (st2, [])

/-! ## MIDI events and outputs shared by both pipelines -/

/-- Incoming host MIDI event: note-on / note-off / anything else.
`beatPos` is `none` when the event's `beatPos` is not a finite number
(the `Number.isFinite` checks in the tail script). -/
inductive MidiEvent where
  | noteOn (pitch velocity channel : ℕ) (beatPos : Option ℚ)
  | noteOff (pitch velocity channel : ℕ) (beatPos : Option ℚ)
  | other
deriving DecidableEq

/-- Observable outputs of a handler invocation: `send` is the immediate
pass-through `event.send()`; `schedOn`/`schedOff` are the
`sendAtBeat` calls made for generated tail note-on/note-off clones. -/
inductive Output where
  | send (ev : MidiEvent)
  | schedOn (pitch : ℚ) (velocity : ℤ) (beat : ℚ)
  | schedOff (pitch : ℚ) (velocity : ℤ) (beat : ℚ)
deriving DecidableEq

/-- Whether an output is an immediate `event.send()` pass-through. -/
def Output.isImmediate : Output → Bool
  | .send _ => true
  | _ => false

/-- `HandleMIDI` of ChordEnumerator.js: note-on pitches are appended to
`barPitches`; every event is passed through via `event.send()`. -/
def handleMIDI_A (st : AState) (ev : MidiEvent) : AState × List Output :=
  match ev with
  | .noteOn pitch _ _ _ =>
    ({ st with barPitches := st.barPitches ++ [pitch] }, [.send ev])
  | _ => (st, [.send ev])

/-! ## Pipeline B — length-sensitive note repeater tail -/

/-- The 18 beat-synced envelope durations (`SYNC_DURATIONS`). -/
def SYNC_DURATIONS : List (String × ℚ) :=
  [("1/64", 0.0625),
   ("1/32t", 0.0833333333),
   ("1/32", 0.125),
   ("1/16t", 0.1666666667),
   ("1/16", 0.25),
   ("1/16*", 0.375),
   ("1/8t", 0.3333333333),
   ("1/8", 0.5),
   ("1/8*", 0.75),
   ("1/4t", 0.6666666667),
   ("1/4", 1),
   ("1/4*", 1.5),
   ("1/2t", 1.3333333333),
   ("1/2", 2),
   ("1/2*", 3),
   ("1t", 2.6666666667),
   ("1", 4),
   ("1*", 6)]

/-- JS `Math.round`: round half toward positive infinity. -/
def jround (q : ℚ) : ℤ :=
  ⌊q + 1 / 2⌋

/-- The script's `clamp` helper at rational type. -/
def clampQ (val lo hi : ℚ) : ℚ :=
  if val < lo then lo else if val > hi then hi else val

/-- The script's `clamp` helper applied to integer values (menu indices,
rounded velocities). -/
def clampZ (val lo hi : ℤ) : ℤ :=
  if val < lo then lo else if val > hi then hi else val

/-- `envDurationFromMenu`: round the parameter value, clamp it into the
table range and look up the beat duration. -/
def envDurationFromMenu (sel : ℚ) : ℚ :=
  (SYNC_DURATIONS.getD (clampZ (jround sel) 0 ((SYNC_DURATIONS.length : ℤ) - 1)).toNat ("", 0)).2

/-- `envelopeAtTime`: basic AHDSR amplitude, times in beats. -/
def envelopeAtTime (t a h d s r total : ℚ) : ℚ :=
  let attackEnd := a
  let holdEnd := attackEnd + h
  let decayEnd := holdEnd + d
  let releaseStart := max decayEnd (total - r)
  if t ≤ 0 then (if a > 0 then 0 else 1)
  else if t < attackEnd ∧ a > 0 then t / a
  else if t < holdEnd then 1
  else if t < decayEnd ∧ d > 0 then
    let k := (t - holdEnd) / d
    1 + k * (s - 1)
  else if t < releaseStart then s
  else
    let relTime := t - releaseStart
    if r ≤ 0 then 0
    else
      let kRel := 1 - min 1 (relTime / r)
      s * kRel

/-- Current values of the tail script's plugin parameters, read at the
top of `createTailRepeats` via `GetParameter`. -/
structure TailParams where
  numerator : ℚ
  denominator : ℚ
  quantity : ℚ
  velDecay : ℚ
  gateFrac : ℚ
  pitchDecay : ℚ
  pitchDecayMultiplier : ℚ
  hpHz : ℚ
  lpHz : ℚ
  delayBeats : ℚ
  attackSel : ℚ
  holdSel : ℚ
  envDecaySel : ℚ
  sustain : ℚ
  releaseSel : ℚ
  voices : ℚ
deriving DecidableEq

/-- `spacing = (denominator !== 0) ? numerator / denominator : 0`. -/
def spacingOf (p : TailParams) : ℚ :=
  if p.denominator ≠ 0 then p.numerator / p.denominator else 0

/-- `quantity = Math.max(1, Math.round(param(QUANTITY)))`. -/
def quantityOf (p : TailParams) : ℤ :=
  max 1 (jround p.quantity)

/-- `voices = Math.max(1, Math.round(param(VOICES)))`. -/
def voicesOf (p : TailParams) : ℤ :=
  max 1 (jround p.voices)

/-- `repeats = Math.min(quantity, voices)`. -/
def repeatsOf (p : TailParams) : ℤ :=
  min (quantityOf p) (voicesOf p)

/-- `transposeStep = pitchDecay * pitchDecayMultiplier`. -/
def transposeStepOf (p : TailParams) : ℚ :=
  p.pitchDecay * p.pitchDecayMultiplier

/-- `gateBeats = spacing * gateFrac`, falling back to `spacing * 0.5`
when that is not positive. -/
def gateBeatsOf (p : TailParams) : ℚ :=
  let g := spacingOf p * p.gateFrac
  if g ≤ 0 then spacingOf p * 0.5 else g

/-- `totalSpan = spacing * Math.max(0, repeats - 1) + envR`. -/
def totalSpanOf (p : TailParams) : ℚ :=
  spacingOf p * ((max 0 (repeatsOf p - 1) : ℤ) : ℚ) + envDurationFromMenu p.releaseSel

/-- One scheduled tail repeat: the note-on clone's pitch and velocity,
the repeat index `i` of the generating loop, and the note-on/note-off
beat times. -/
structure TailEvent where
  pitch : ℚ
  velocity : ℤ
  repIdx : ℕ
  onBeat : ℚ
  offBeat : ℚ
deriving DecidableEq

/-- Loop body of `createTailRepeats` at repeat index `i`.  `band hp lp
pitch` abstracts the pass-band test `¬(hz < hpHz ∨ hz > lpHz)` with
`hz = 440 * 2 ^ ((pitch - 69) / 12)` (`midiPitchToHz`): that comparison
of a transcendental real against the cutoff parameters is kept abstract;
`hp`/`lp` are the cutoffs after the auto-swap.  Returns `none` exactly
when the JS loop hits `continue` and emits nothing for this `i`. -/
def tailEventAt (p : TailParams) (band : ℚ → ℚ → ℚ → Bool) (hp lp : ℚ)
    (baseVel basePitch releaseBeat : ℚ) (i : ℕ) : Option TailEvent :=
  let spacing := spacingOf p
  let beatTime := releaseBeat + p.delayBeats + spacing * i
  let tailEnv := if p.velDecay > 0 then p.velDecay ^ i else 1
  let adsrEnv := envelopeAtTime ((i : ℚ) * spacing)
    (envDurationFromMenu p.attackSel) (envDurationFromMenu p.holdSel)
    (envDurationFromMenu p.envDecaySel) p.sustain
    (envDurationFromMenu p.releaseSel) (totalSpanOf p)
  let vel0 := jround (baseVel * tailEnv * adsrEnv)
  let vel := if vel0 < 1 then 1 else if vel0 > 127 then 127 else vel0
  let pitch := clampQ (basePitch + transposeStepOf p * i) 0 127
  if band hp lp pitch then
    some ⟨pitch, vel, i, beatTime, beatTime + gateBeatsOf p⟩
  else none

/-- `createTailRepeats` from the tail script: validates spacing, swaps
inverted high-pass/low-pass cutoffs, and runs the repeat loop.  Returns
the list of emitted tail repeats (each standing for one
`on.sendAtBeat(beatTime)` / `off.sendAtBeat(beatTime + gateBeats)`
pair).  `lengthBeats` is accepted, as in the source, without being used
by the computation. -/
def createTailRepeats (p : TailParams) (band : ℚ → ℚ → ℚ → Bool)
    (srcVelocity srcPitch : ℕ) (lengthBeats releaseBeat : ℚ) : List TailEvent :=
  let hp := if p.lpHz < p.hpHz then p.lpHz else p.hpHz
  let lp := if p.lpHz < p.hpHz then p.hpHz else p.lpHz
  if spacingOf p ≤ 0 then []
  else
    (List.range (repeatsOf p).toNat).filterMap
      (tailEventAt p band hp lp (srcVelocity : ℚ) (srcPitch : ℚ) releaseBeat)

/-- One entry of the tail script's `activeNotes` map: the stored
note-on clone and its start beat. -/
structure ActiveNote where
  onPitch : ℕ
  onVelocity : ℕ
  onChannel : ℕ
  startBeat : ℚ
deriving DecidableEq

/-- Mutable module state of the tail script: `lastBeatPos` and the
`activeNotes` map, keyed by the `"pitch:channel"` string rendered here
as the pair (pitch, channel). -/
structure BState where
  lastBeatPos : ℚ
  activeNotes : ℕ × ℕ → Option ActiveNote

/-- Initial module state of the tail script (`lastBeatPos = -1`,
empty `activeNotes`). -/
def initBState : BState :=
  ⟨-1, fun _ => none⟩

/-- Timing snapshot consumed by the tail script's `ProcessMIDI`;
`blockStartBeat` is `none` when it is not a number. -/
structure BTimingInfo where
  playing : Bool
  blockStartBeat : Option ℚ

/-- `ProcessMIDI` of the tail script: caches `blockStartBeat` into
`lastBeatPos` when the timing info object and the field are present;
nothing else is touched. -/
def processMIDI_B (st : BState) (info : Option BTimingInfo) : BState :=
  match info with
  | some i =>
    match i.blockStartBeat with
    | some b => { st with lastBeatPos := b }
    | none => st
  | none => st

/-- `HandleMIDI` of the tail script: note-ons are cached into
`activeNotes`; note-offs look up the matching entry, schedule the tail
and delete it; every incoming event is passed through via
`event.send()` after any tail scheduling. -/
def handleMIDI_B (p : TailParams) (band : ℚ → ℚ → ℚ → Bool)
    (st : BState) (ev : MidiEvent) : BState × List Output :=
  match ev with
  | .noteOn pitch vel ch beatPos =>
    let key := (pitch, ch)
    let startBeat := beatPos.getD st.lastBeatPos
    ({ st with activeNotes := fun k =>
        if k = key then some ⟨pitch, vel, ch, startBeat⟩ else st.activeNotes k },
     [.send ev])
  | .noteOff pitch vel ch beatPos =>
    let key := (pitch, ch)
    match st.activeNotes key with
    | some info =>
      let endBeat := beatPos.getD st.lastBeatPos
      let lengthBeats := max 0 (endBeat - info.startBeat)
      let tail := createTailRepeats p band info.onVelocity info.onPitch lengthBeats endBeat
      ({ st with activeNotes := fun k => if k = key then none else st.activeNotes k },
       (tail.flatMap fun e =>
         [.schedOn e.pitch e.velocity e.onBeat, .schedOff e.pitch e.velocity e.offBeat])
         ++ [.send ev])
    | none => (st, [.send ev])
  | .other => (st, [.send ev])

/-! ## Concrete instances used by witnesses and counterexamples -/

/-- Pass-band oracle that lets every pitch through (models cutoffs wide
enough that the generated pitches' frequencies stay inside the band). -/
def bandAll : ℚ → ℚ → ℚ → Bool := fun _ _ _ => true

/-- The tail script's parameter defaults as declared in
`PluginParameters`. -/
def defaultTailParams : TailParams :=
  ⟨1, 12, 2, 1, 0.5, 0, 1, 20, 2000, 0.083, 0, 0, 10, 0.8, 10, 12⟩

/-- Parameters exhibiting the `velDecay = 0` behaviour: spacing 1/4,
two repeats, zero velocity decay. -/
def cp4 : TailParams :=
  ⟨1, 4, 2, 0, 0.5, 0, 1, 20, 20000, 0, 0, 0, 0, 0.8, 0, 2⟩

/-- Same parameters with `velDecay = 1` (a positive decay value). -/
def cpW : TailParams :=
  ⟨1, 4, 2, 1, 0.5, 0, 1, 20, 20000, 0, 0, 0, 0, 0.8, 0, 2⟩

/-- Same parameters with denominator 0. -/
def cp8 : TailParams :=
  ⟨1, 0, 2, 1, 0.5, 0, 1, 20, 20000, 0, 0, 0, 0, 0.8, 0, 2⟩

/-- First tail repeat emitted for `cpW` with source velocity 100,
source pitch 60, release beat 0. -/
def e4w : TailEvent :=
  ⟨60, 1, 0, 0, 1 / 8⟩

/-- Chord-logger state after a tick at beat 4 in 4/4 with a C4 note-on
accumulated (current bar index 1). -/
def stC5 : AState :=
  ⟨some 1, [60], true⟩

/-- Timing snapshot after a timeline jump to beat 20 in 4/4. -/
def tC5 : TimingInfo :=
  ⟨true, 20, 4, 4⟩

/-! ## Helper lemmas about the sorted-set operations -/

theorem mem_insertSortedUnique {x a : ℕ} : ∀ {l : List ℕ},
    a ∈ insertSortedUnique x l ↔ a = x ∨ a ∈ l := by
  intro l
  induction l with
  | nil => simp [insertSortedUnique]
  | cons y ys ih =>
    simp only [insertSortedUnique]
    split
    · simp [List.mem_cons]
    · split
      · rename_i hlt heq
        subst heq
        simp [List.mem_cons]
      · simp only [List.mem_cons, ih]
        tauto

theorem sorted_insertSortedUnique {x : ℕ} : ∀ {l : List ℕ},
    l.Sorted (· < ·) → (insertSortedUnique x l).Sorted (· < ·) := by
  intro l
  induction l with
  | nil => simp [insertSortedUnique]
  | cons y ys ih =>
    intro h
    rw [List.sorted_cons] at h
    obtain ⟨hy, hys⟩ := h
    simp only [insertSortedUnique]
    split
    · rename_i hxy
      rw [List.sorted_cons]
      refine ⟨?_, List.sorted_cons.mpr ⟨hy, hys⟩⟩
      intro b hb
      rcases List.mem_cons.mp hb with rfl | hb
      · exact hxy
      · exact lt_trans hxy (hy b hb)
    · split
      · exact List.sorted_cons.mpr ⟨hy, hys⟩
      · rename_i h1 h2
        rw [List.sorted_cons]
        refine ⟨?_, ih hys⟩
        intro b hb
        rcases mem_insertSortedUnique.mp hb with rfl | hb
        · omega
        · exact hy b hb

theorem mem_uniqSorted {a : ℕ} : ∀ {l : List ℕ}, a ∈ uniqSorted l ↔ a ∈ l := by
  intro l
  induction l with
  | nil => simp [uniqSorted]
  | cons y ys ih =>
    show a ∈ insertSortedUnique y (uniqSorted ys) ↔ _
    rw [mem_insertSortedUnique]
    simp [ih]

theorem sorted_uniqSorted : ∀ (l : List ℕ), (uniqSorted l).Sorted (· < ·) := by
  intro l
  induction l with
  | nil => simp [uniqSorted]
  | cons y ys ih => exact sorted_insertSortedUnique ih

theorem uniqSorted_ne_nil {l : List ℕ} (h : l ≠ []) : uniqSorted l ≠ [] := by
  cases l with
  | nil => exact absurd rfl h
  | cons y ys =>
    have : y ∈ uniqSorted (y :: ys) := mem_uniqSorted.mpr (List.mem_cons_self y ys)
    exact List.ne_nil_of_mem this

theorem headD_mem {l : List ℕ} (h : l ≠ []) : l.headD 0 ∈ l := by
  cases l with
  | nil => exact absurd rfl h
  | cons y ys => simp

theorem headD_le_of_sorted {l : List ℕ} (hs : l.Sorted (· < ·)) {a : ℕ}
    (ha : a ∈ l) : l.headD 0 ≤ a := by
  cases l with
  | nil => cases ha
  | cons y ys =>
    rw [List.sorted_cons] at hs
    rcases List.mem_cons.mp ha with rfl | h
    · simp
    · simpa using le_of_lt (hs.1 a h)

theorem pcName_length_pos (style pc : ℕ) : 0 < (pcName style pc).length := by
  unfold pcName
  generalize hm : (pc % 12 + 12) % 12 = m
  have hlt : m < 12 := by omega
  split <;> interval_cases m <;> decide

theorem chordLabel_ne_empty (style rootPC : ℕ) (pcs ints : List ℕ) :
    chordLabel style rootPC pcs ints ≠ "" := by
  intro heq
  have hp := pcName_length_pos style rootPC
  simp only [chordLabel] at heq
  split at heq <;>
    (have hl := congrArg String.length heq
     simp only [String.length_append, String.length_empty] at hl
     omega)

/-! ## Helper lemmas about the bar tracker and the tail generator -/

theorem jsOrNum_ne_zero (x f : ℚ) (hf : f ≠ 0) : jsOrNum x f ≠ 0 := by
  unfold jsOrNum
  split
  · exact hf
  · assumption

theorem beatsPerBarOf_ne_zero (t : TimingInfo) : beatsPerBarOf t ≠ 0 := by
  unfold beatsPerBarOf
  exact mul_ne_zero (jsOrNum_ne_zero _ _ (by norm_num))
    (div_ne_zero (by norm_num) (jsOrNum_ne_zero _ _ (by norm_num)))

theorem flushIter_length : ∀ (k : ℕ) (c : ℤ) (pitches : List ℕ),
    (flushIter k c pitches).length = k := by
  intro k
  induction k with
  | zero => intro c pitches; rfl
  | succ n ih =>
    intro c pitches
    simp [flushIter, ih]

theorem flushIter_map_fst : ∀ (k : ℕ) (c : ℤ) (pitches : List ℕ),
    (flushIter k c pitches).map Prod.fst
      = (List.range k).map (fun j : ℕ => c + 1 + (j : ℤ)) := by
  intro k
  induction k with
  | zero => intro c pitches; rfl
  | succ n ih =>
    intro c pitches
    show ((c + 1, pitches) :: flushIter n (c + 1) []).map Prod.fst = _
    rw [List.map_cons, ih, List.range_succ_eq_map, List.map_cons, List.map_map]
    have hfun : (fun j : ℕ => c + 1 + 1 + (j : ℤ))
        = ((fun j : ℕ => c + 1 + (j : ℤ)) ∘ Nat.succ) := by
      funext j
      simp only [Function.comp_apply, Nat.succ_eq_add_one]
      push_cast
      ring
    rw [hfun]
    norm_num

theorem spacingOf_pos_of_not_le {p : TailParams} (h : ¬ spacingOf p ≤ 0) :
    0 < spacingOf p :=
  lt_of_not_le h

theorem gateBeatsOf_pos {p : TailParams} (h : 0 < spacingOf p) :
    0 < gateBeatsOf p := by
  have hg : gateBeatsOf p
      = if spacingOf p * p.gateFrac ≤ 0 then spacingOf p * 0.5
        else spacingOf p * p.gateFrac := rfl
  rw [hg]
  split
  · exact mul_pos h (by norm_num)
  · rename_i hc
    exact lt_of_not_le hc

/-- Concrete evaluation of the tail generator on `cpW` (positive
velocity decay): two repeats, velocities 1 and 80. -/
theorem createTailRepeats_cpW_eval :
    createTailRepeats cpW bandAll 100 60 1 0
      = [⟨60, 1, 0, 0, 1 / 8⟩, ⟨60, 80, 1, 1 / 4, 3 / 8⟩] := by
  norm_num [createTailRepeats, spacingOf, repeatsOf, quantityOf, voicesOf, jround,
    tailEventAt, envelopeAtTime, envDurationFromMenu, clampZ, clampQ, SYNC_DURATIONS,
    totalSpanOf, transposeStepOf, gateBeatsOf, cpW, bandAll, List.range_succ,
    List.filterMap]

/-! ## Claim theorems -/

/-- Claim C1 (code_bug evidence): evaluated on the C major triad
`[60,64,67]`, `chordNameFromLowestRoot` returns bass 60, pitch classes
0-4-7 (named C-E-G) and intervals `[0,4,7]` as the claim states, but the
label is the fallback string "C (4,7)", not "C": the code encodes the
recognized major quality as the empty string, so its `meaningful` test
cannot distinguish a major triad from an unclassifiable set. -/
theorem chordNamer_majorTriad_eval :
    chordNameFromLowestRoot 0 [60, 64, 67]
        = some ⟨"C (4,7)", 60, [0, 4, 7], [60, 64, 67], [0, 4, 7]⟩ ∧
      ([0, 4, 7] : List ℕ).map (pcName 0) = ["C", "E", "G"] ∧
      (chordNameFromLowestRoot 0 [60, 64, 67]).map ChordResult.name ≠ some "C" := by
  refine ⟨by decide, by decide, by decide⟩

/-- Claim C2 (amended): on an isPlaying true-to-false transition the
chord logger clears its current-bar index and bar pitch list, but the
tail generator's `ProcessMIDI` never touches `activeNotes` (it only
caches the block start beat), so that map survives transport stop. -/
theorem stopReset_state (stA : AState) (t : TimingInfo) (stB : BState)
    (info : Option BTimingInfo) (h1 : t.playing = false)
    (h2 : stA.lastPlayed = true) :
    (processMIDI_A stA t).1.currentBar = none ∧
    (processMIDI_A stA t).1.barPitches = [] ∧
    (processMIDI_B stB info).activeNotes = stB.activeNotes := by
  refine ⟨?_, ?_, ?_⟩
  · simp [processMIDI_A, h1, h2]
  · simp [processMIDI_A, h1, h2]
  · cases info with
    | none => rfl
    | some i =>
      cases hb : i.blockStartBeat with
      | none => simp [processMIDI_B, hb]
      | some b => simp [processMIDI_B, hb]

/-- Witness for `stopReset_state` at concrete inputs. -/
theorem stopReset_state_w :
    (processMIDI_A ⟨some 3, [60], true⟩ ⟨false, 0, 4, 4⟩).1.currentBar = none ∧
    (processMIDI_A ⟨some 3, [60], true⟩ ⟨false, 0, 4, 4⟩).1.barPitches = [] ∧
    (processMIDI_B initBState none).activeNotes = initBState.activeNotes :=
  stopReset_state ⟨some 3, [60], true⟩ ⟨false, 0, 4, 4⟩ initBState none rfl rfl

/-- Claim C2 (counterexample): a note-on cached while playing is still
in the tail generator's `activeNotes` map after a processing tick whose
transport is stopped — the map is not cleared on the true-to-false
transition. -/
theorem tailActiveNotes_persist_cex :
    ((processMIDI_B
        (handleMIDI_B defaultTailParams bandAll initBState
          (.noteOn 60 100 0 (some 1))).1
        (some ⟨false, some 2⟩)).activeNotes (60, 0)).isSome = true := by
  rfl

/-- Claim C3 (amended): a meter denominator of 0 is replaced by 4
through the `|| 4` fallback, making `beatsPerBar` equal the (fallback
applied) numerator rather than 4; a negative denominator is used as-is;
and `beatsPerBar` is never zero, so the bar-index computation never
divides by zero. -/
theorem meterFallback (t : TimingInfo) :
    (t.meterDenominator = 0 → beatsPerBarOf t = jsOrNum t.meterNumerator 4) ∧
    (t.meterDenominator < 0 →
      beatsPerBarOf t = jsOrNum t.meterNumerator 4 * (4 / t.meterDenominator)) ∧
    beatsPerBarOf t ≠ 0 := by
  refine ⟨?_, ?_, beatsPerBarOf_ne_zero t⟩
  · intro h
    simp [beatsPerBarOf, jsOrNum, h]
  · intro h
    have hne : t.meterDenominator ≠ 0 := ne_of_lt h
    simp [beatsPerBarOf, jsOrNum, hne]

/-- Witness for `meterFallback` at denominator 0 and denominator -4. -/
theorem meterFallback_w :
    (beatsPerBarOf ⟨true, 0, 4, 0⟩ = jsOrNum 4 4) ∧
    beatsPerBarOf ⟨true, 0, 4, 0⟩ ≠ 0 ∧
    beatsPerBarOf ⟨true, 0, 4, -4⟩ = jsOrNum 4 4 * (4 / (-4)) :=
  ⟨(meterFallback _).1 rfl, (meterFallback _).2.2,
    (meterFallback _).2.1 (by norm_num)⟩

/-- Claim C3 (counterexample): with meter 3/0 at beat 3 the code
computes `beatsPerBar = 3` (the numerator) and bar index 1, whereas
treating `beatsPerBar` as 4 — as the claim states — would give bar
index 0. -/
theorem meterFallback_cex :
    beatsPerBarOf ⟨true, 3, 3, 0⟩ = 3 ∧
    barIndexOf ⟨true, 3, 3, 0⟩ = 1 ∧
    ¬ beatsPerBarOf ⟨true, 3, 3, 0⟩ = 4 ∧
    (⌊(3 : ℚ) / 4⌋ : ℤ) ≠ 1 := by
  refine ⟨?_, ?_, ?_, ?_⟩ <;> norm_num [beatsPerBarOf, barIndexOf, jsOrNum]

/-- Claim C8: when the denominator parameter is 0, or the computed
spacing is not positive, `createTailRepeats` emits nothing, whatever the
other parameters, the band filter and the source note are. -/
theorem tailScheduler_degenerate (p : TailParams) (band : ℚ → ℚ → ℚ → Bool)
    (sv sp : ℕ) (lb rb : ℚ) (h : p.denominator = 0 ∨ spacingOf p ≤ 0) :
    createTailRepeats p band sv sp lb rb = [] := by
  have hsp : spacingOf p ≤ 0 := by
    rcases h with h | h
    · simp [spacingOf, h]
    · exact h
  unfold createTailRepeats
  simp [hsp]

/-- Witness for `tailScheduler_degenerate` at denominator 0. -/
theorem tailScheduler_degenerate_w :
    createTailRepeats cp8 bandAll 100 60 1 0 = [] :=
  tailScheduler_degenerate cp8 bandAll 100 60 1 0 (Or.inl rfl)

/-- Claim C9: at time 0 the envelope returns 0 exactly when the attack
duration is positive, and 1 otherwise (in particular 1 when the attack
duration is 0). -/
theorem envelope_at_zero (a h d s r total : ℚ) :
    envelopeAtTime 0 a h d s r total = if 0 < a then 0 else 1 := by
  simp [envelopeAtTime]

/-- Characterization of a successful loop iteration of
`createTailRepeats`: if `tailEventAt` emits an event, that event is the
record built by the loop body at index `i`. -/
theorem tailEventAt_eq_some {p : TailParams} {band : ℚ → ℚ → ℚ → Bool}
    {hp lp bv bp rb : ℚ} {i : ℕ} {e : TailEvent}
    (h : tailEventAt p band hp lp bv bp rb i = some e) :
    e = ⟨clampQ (bp + transposeStepOf p * i) 0 127,
         clampZ (jround (bv * (if p.velDecay > 0 then p.velDecay ^ i else 1) *
           envelopeAtTime ((i : ℚ) * spacingOf p)
             (envDurationFromMenu p.attackSel) (envDurationFromMenu p.holdSel)
             (envDurationFromMenu p.envDecaySel) p.sustain
             (envDurationFromMenu p.releaseSel) (totalSpanOf p))) 1 127,
         i,
         rb + p.delayBeats + spacingOf p * i,
         rb + p.delayBeats + spacingOf p * i + gateBeatsOf p⟩ := by
  simp only [tailEventAt] at h
  split at h
  · exact (Option.some.inj h).symm
  · exact absurd h (by simp)

/-- Claim C5: while playing, when the computed bar index exceeds the
tracked bar `c`, the tick reports exactly `barIndex - c` flushes, for
bars `c+1, c+2, ..., barIndex` in ascending order. -/
theorem barAdvance_flushes (st : AState) (t : TimingInfo) (c : ℤ)
    (hp : t.playing = true) (hc : st.currentBar = some c)
    (hlt : c < barIndexOf t) :
    ((processMIDI_A st t).2).length = (barIndexOf t - c).toNat ∧
    ((processMIDI_A st t).2).map Prod.fst
      = (List.range ((barIndexOf t - c).toNat)).map (fun j : ℕ => c + 1 + (j : ℤ)) := by
  have hne : c ≠ barIndexOf t := ne_of_lt hlt
  constructor
  · simp [processMIDI_A, hp, hc, hne, flushIter_length]
  · simp [processMIDI_A, hp, hc, hne, flushIter_map_fst]

/-- Witness for `barAdvance_flushes`: the jump from beat 4 (bar 1) to
beat 20 (bar 5) at 4/4 reports four flushes, bars 2-3-4-5. -/
theorem barAdvance_flushes_w :
    ((processMIDI_A stC5 tC5).2).length = (barIndexOf tC5 - 1).toNat ∧
    ((processMIDI_A stC5 tC5).2).map Prod.fst
      = (List.range ((barIndexOf tC5 - 1).toNat)).map (fun j : ℕ => 1 + 1 + (j : ℤ)) :=
  barAdvance_flushes stC5 tC5 1 rfl rfl
    (by norm_num [barIndexOf, beatsPerBarOf, jsOrNum, tC5])

/-- Claim C6: the tail generator never emits more repeats than
`min(round(quantity), round(voices))` with each operand floored at 1,
and every emitted repeat's note-off beat is strictly after its note-on
beat. -/
theorem tailScheduler_bounds (p : TailParams) (band : ℚ → ℚ → ℚ → Bool)
    (sv sp : ℕ) (lb rb : ℚ) :
    ((createTailRepeats p band sv sp lb rb).length : ℤ)
        ≤ min (max 1 (jround p.quantity)) (max 1 (jround p.voices)) ∧
    ∀ e ∈ createTailRepeats p band sv sp lb rb, e.onBeat < e.offBeat := by
  have hrep : (0 : ℤ) ≤ repeatsOf p := by
    unfold repeatsOf quantityOf voicesOf
    exact le_min (le_trans zero_le_one (le_max_left 1 _))
      (le_trans zero_le_one (le_max_left 1 _))
  have hcr : createTailRepeats p band sv sp lb rb
      = if spacingOf p ≤ 0 then []
        else (List.range (repeatsOf p).toNat).filterMap
          (tailEventAt p band (if p.lpHz < p.hpHz then p.lpHz else p.hpHz)
            (if p.lpHz < p.hpHz then p.hpHz else p.lpHz)
            (sv : ℚ) (sp : ℚ) rb) := rfl
  constructor
  · show ((createTailRepeats p band sv sp lb rb).length : ℤ) ≤ repeatsOf p
    rw [hcr]
    split
    · simpa using hrep
    · calc (((List.range (repeatsOf p).toNat).filterMap _).length : ℤ)
          ≤ (((List.range (repeatsOf p).toNat)).length : ℤ) := by
            exact_mod_cast List.length_filterMap_le _ _
        _ = ((repeatsOf p).toNat : ℤ) := by rw [List.length_range]
        _ = repeatsOf p := Int.toNat_of_nonneg hrep
  · intro e he
    rw [hcr] at he
    split at he
    · simp at he
    · rename_i hsp
      obtain ⟨i, hi, hei⟩ := List.mem_filterMap.mp he
      obtain rfl := tailEventAt_eq_some hei
      exact lt_add_of_pos_right _ (gateBeatsOf_pos (lt_of_not_le hsp))

/-- Witness for `tailScheduler_bounds` at concrete parameters. -/
theorem tailScheduler_bounds_w :
    (((createTailRepeats cpW bandAll 100 60 1 0).length : ℤ)
        ≤ min (max 1 (jround cpW.quantity)) (max 1 (jround cpW.voices))) ∧
    e4w.onBeat < e4w.offBeat :=
  ⟨(tailScheduler_bounds cpW bandAll 100 60 1 0).1,
   (tailScheduler_bounds cpW bandAll 100 60 1 0).2 e4w
     (by rw [createTailRepeats_cpW_eval]; exact List.mem_cons_self _ _)⟩

/-- Claim C4 (amended): for a strictly positive velocity-decay
parameter, every emitted repeat's velocity is
`round(baseVelocity * velocityDecay ^ i * envelopeAmplitude(i * spacing, ...))`
clamped to [1,127]; when the decay parameter is 0 the code substitutes a
decay factor of 1 instead of `0 ^ i` (see the counterexample). -/
theorem tailVelocity_formula (p : TailParams) (band : ℚ → ℚ → ℚ → Bool)
    (sv sp : ℕ) (lb rb : ℚ) (e : TailEvent) (hdecay : 0 < p.velDecay)
    (he : e ∈ createTailRepeats p band sv sp lb rb) :
    e.velocity = clampZ (jround ((sv : ℚ) * p.velDecay ^ e.repIdx *
      envelopeAtTime ((e.repIdx : ℚ) * spacingOf p)
        (envDurationFromMenu p.attackSel) (envDurationFromMenu p.holdSel)
        (envDurationFromMenu p.envDecaySel) p.sustain
        (envDurationFromMenu p.releaseSel) (totalSpanOf p))) 1 127 := by
  have hcr : createTailRepeats p band sv sp lb rb
      = if spacingOf p ≤ 0 then []
        else (List.range (repeatsOf p).toNat).filterMap
          (tailEventAt p band (if p.lpHz < p.hpHz then p.lpHz else p.hpHz)
            (if p.lpHz < p.hpHz then p.hpHz else p.lpHz)
            (sv : ℚ) (sp : ℚ) rb) := rfl
  rw [hcr] at he
  split at he
  · simp at he
  · obtain ⟨i, hi, hei⟩ := List.mem_filterMap.mp he
    obtain rfl := tailEventAt_eq_some hei
    simp only [if_pos hdecay]

/-- Witness for `tailVelocity_formula` on the first repeat of `cpW`. -/
theorem tailVelocity_formula_w :
    e4w.velocity = clampZ (jround (((100 : ℕ) : ℚ) * cpW.velDecay ^ e4w.repIdx *
      envelopeAtTime ((e4w.repIdx : ℚ) * spacingOf cpW)
        (envDurationFromMenu cpW.attackSel) (envDurationFromMenu cpW.holdSel)
        (envDurationFromMenu cpW.envDecaySel) cpW.sustain
        (envDurationFromMenu cpW.releaseSel) (totalSpanOf cpW))) 1 127 :=
  tailVelocity_formula cpW bandAll 100 60 1 0 e4w (by norm_num [cpW])
    (by rw [createTailRepeats_cpW_eval]; exact List.mem_cons_self _ _)

/-- Claim C4 (counterexample): with velocity decay 0 the second repeat
is emitted with velocity 80 (`round(100 * 1 * 0.8)` — the code replaces a
zero decay by the factor 1.0), while the claimed formula
`round(100 * 0 ^ 1 * 0.8)` clamped to [1,127] gives 1. -/
theorem tailVelocity_zeroDecay_cex :
    (createTailRepeats cp4 bandAll 100 60 1 0).map TailEvent.velocity = [1, 80] ∧
    clampZ (jround (((100 : ℕ) : ℚ) * cp4.velDecay ^ (1 : ℕ) *
      envelopeAtTime ((1 : ℚ) * spacingOf cp4)
        (envDurationFromMenu cp4.attackSel) (envDurationFromMenu cp4.holdSel)
        (envDurationFromMenu cp4.envDecaySel) cp4.sustain
        (envDurationFromMenu cp4.releaseSel) (totalSpanOf cp4))) 1 127 = 1 ∧
    (80 : ℤ) ≠ 1 := by
  refine ⟨?_, ?_, by norm_num⟩ <;>
    norm_num [createTailRepeats, spacingOf, repeatsOf, quantityOf, voicesOf, jround,
      tailEventAt, envelopeAtTime, envDurationFromMenu, clampZ, clampQ, SYNC_DURATIONS,
      totalSpanOf, transposeStepOf, gateBeatsOf, cp4, bandAll, List.range_succ,
      List.filterMap]

/-- Claim C7: for every non-empty pitch list, the chord namer returns a
non-empty label, its bass is the minimum of the input pitches (hence the
root pitch class is `min(pitches) mod 12`, the root used for the
intervals being `bass % 12`), and the interval set contains 0, is
strictly ascending (unique) and lies within [0,11]. -/
theorem chordNamer_invariants (style : ℕ) (pitches : List ℕ) (res : ChordResult)
    (h : chordNameFromLowestRoot style pitches = some res) :
    res.name ≠ "" ∧ res.bass ∈ pitches ∧ (∀ x ∈ pitches, res.bass ≤ x) ∧
    0 ∈ res.intervals ∧ res.intervals.Sorted (· < ·) ∧
    (∀ v ∈ res.intervals, v ≤ 11) ∧
    res.intervals = intervalsFromRootPC res.pcs (res.bass % 12) := by
  unfold chordNameFromLowestRoot at h
  split at h
  · exact absurd h (by simp)
  · rename_i hne
    have hnil : pitches ≠ [] := by
      intro hemp
      apply hne
      rw [hemp]
      rfl
    simp only [Option.some.injEq] at h
    subst h
    have hU : uniqSorted pitches ≠ [] := uniqSorted_ne_nil hnil
    have hsorted := sorted_uniqSorted pitches
    have hbassU : (uniqSorted pitches).headD 0 ∈ uniqSorted pitches := headD_mem hU
    refine ⟨chordLabel_ne_empty _ _ _ _, mem_uniqSorted.mp hbassU, ?_, ?_, ?_, ?_, rfl⟩
    · intro x hx
      exact headD_le_of_sorted hsorted (mem_uniqSorted.mpr hx)
    · show 0 ∈ intervalsFromRootPC (pcsFromPitches (uniqSorted pitches)) _
      unfold intervalsFromRootPC
      rw [mem_uniqSorted]
      apply List.mem_map.mpr
      refine ⟨(uniqSorted pitches).headD 0 % 12, ?_, by omega⟩
      unfold pcsFromPitches
      rw [mem_uniqSorted]
      exact List.mem_map_of_mem _ hbassU
    · exact sorted_uniqSorted _
    · intro v hv
      unfold intervalsFromRootPC at hv
      rw [mem_uniqSorted] at hv
      obtain ⟨pc, _, hpc⟩ := List.mem_map.mp hv
      omega

/-- Witness for `chordNamer_invariants` on the C major triad. -/
theorem chordNamer_invariants_w :
    (ChordResult.mk "C (4,7)" 60 [0, 4, 7] [60, 64, 67] [0, 4, 7]).name ≠ "" ∧
    (ChordResult.mk "C (4,7)" 60 [0, 4, 7] [60, 64, 67] [0, 4, 7]).bass ∈ [60, 64, 67] ∧
    (∀ x ∈ [60, 64, 67],
      (ChordResult.mk "C (4,7)" 60 [0, 4, 7] [60, 64, 67] [0, 4, 7]).bass ≤ x) ∧
    0 ∈ (ChordResult.mk "C (4,7)" 60 [0, 4, 7] [60, 64, 67] [0, 4, 7]).intervals ∧
    (ChordResult.mk "C (4,7)" 60 [0, 4, 7] [60, 64, 67] [0, 4, 7]).intervals.Sorted (· < ·) ∧
    (∀ v ∈ (ChordResult.mk "C (4,7)" 60 [0, 4, 7] [60, 64, 67] [0, 4, 7]).intervals, v ≤ 11) ∧
    (ChordResult.mk "C (4,7)" 60 [0, 4, 7] [60, 64, 67] [0, 4, 7]).intervals
      = intervalsFromRootPC (ChordResult.mk "C (4,7)" 60 [0, 4, 7] [60, 64, 67] [0, 4, 7]).pcs
          ((ChordResult.mk "C (4,7)" 60 [0, 4, 7] [60, 64, 67] [0, 4, 7]).bass % 12) :=
  chordNamer_invariants 0 [60, 64, 67]
    (ChordResult.mk "C (4,7)" 60 [0, 4, 7] [60, 64, 67] [0, 4, 7]) (by decide)

/-- Every scheduled tail output is a deferred `sendAtBeat`, never an
immediate `send`. -/
theorem filter_sched_eq_nil (l : List TailEvent) :
    (l.flatMap fun e => [Output.schedOn e.pitch e.velocity e.onBeat,
        Output.schedOff e.pitch e.velocity e.offBeat]).filter Output.isImmediate = [] := by
  induction l with
  | nil => rfl
  | cons a as ih => simp [Output.isImmediate, ih]

/-- Claim C10: in both pipelines every incoming event is passed through
to the host by exactly one immediate `send()`, unmodified, on every
path; tail events only ever appear as additional scheduled outputs. -/
theorem handleMIDI_passthrough (stA : AState) (p : TailParams)
    (band : ℚ → ℚ → ℚ → Bool) (stB : BState) (ev : MidiEvent) :
    (handleMIDI_A stA ev).2 = [Output.send ev] ∧
    ((handleMIDI_B p band stB ev).2).filter Output.isImmediate = [Output.send ev] := by
  constructor
  · cases ev <;> rfl
  · cases ev with
    | noteOn pitch vel ch bp => rfl
    | other => rfl
    | noteOff pitch vel ch bp =>
      simp only [handleMIDI_B]
      cases hl : stB.activeNotes (pitch, ch) with
      | none => rfl
      | some info =>
        rw [List.filter_append, filter_sched_eq_nil]
        rfl

end Scripter
